import Mathlib

/-!
# Verification of the PCM audio conversion stage (`src/pcm-processor.js`)

This file embeds the per-block audio transform of `PcmProcessor` and proves
the specified properties of it.

Modelling conventions:
* Audio samples are rationals (`ℚ`).  The JavaScript engine computes with
  IEEE doubles on `Float32Array` inputs, but every operation the code
  performs — clamping with `Math.max`/`Math.min`, multiplication of a
  float32 value (24-bit significand) by the 16-bit constants `0x8000` /
  `0x7fff`, truncation and 16-bit wrapping on typed-array stores — is exact
  in double precision, so rational arithmetic reproduces it exactly.
* `Math.round` rounds half toward positive infinity: `⌊q + 1/2⌋`.
* Storing a number into an `Int16Array` element applies `ToInt16`:
  truncation toward zero followed by wrapping into `[-32768, 32767]`.
* `buffer[idx] || 0` yields the element when `idx` is in bounds, and `0`
  when the access is out of bounds (`undefined || 0` evaluates to `0`;
  for an in-bounds element equal to `0`, `0 || 0` is also `0`).
-/

namespace PcmProc

/-- JavaScript `Math.round`: rounds to the nearest integer, half toward
positive infinity. -/
def jsRound (q : ℚ) : ℤ := ⌊q + 1/2⌋

/-- Truncation toward zero, the integer conversion JavaScript applies to a
number before wrapping it into a 16-bit slot of an `Int16Array`. -/
def jsTrunc (q : ℚ) : ℤ := if q < 0 then -⌊-q⌋ else ⌊q⌋

/-- Wrapping of a truncated value into the signed 16-bit range, the final
step of the `ToInt16` conversion performed by an `Int16Array` store. -/
def toInt16 (n : ℤ) : ℤ := (n + 32768) % 65536 - 32768

/-- The constant `TARGET_SAMPLE_RATE = 16000` (pcm-processor.js, line 2). -/
def TARGET_SAMPLE_RATE : ℚ := 16000

/-- Lines 17 / 32: `Math.max(-1, Math.min(1, s))`. -/
def clamp (s : ℚ) : ℚ := max (-1) (min 1 s)

/-- The per-sample conversion appearing identically on lines 17–19 and
32–33: clamp to `[-1, 1]`, scale a negative value by `0x8000 = 32768` and a
non-negative one by `0x7fff = 32767`, then store into an `Int16Array`
element (truncation toward zero, then 16-bit wrap). -/
def sampleConvert (s : ℚ) : ℤ :=
  toInt16 (jsTrunc (if clamp s < 0 then clamp s * 32768 else clamp s * 32767))

/-- The identity-rate branch of `convertAndDownsampleAudio`
(lines 14–21): convert each sample in place. -/
def directConvert (buffer : List ℚ) : List ℤ := buffer.map sampleConvert

/-- The downsampling branch of `convertAndDownsampleAudio` (lines 24–35):
`newLength = Math.round(buffer.length / ratio)` samples, the `i`-th taken
from source index `Math.round(i * ratio)`, with `buffer[idx] || 0`
substituting silence for an out-of-bounds access.  (`Int.toNat` realises
the `Int16Array` length, which is nonnegative whenever `ratio > 0`, the
regime of every claim; a negative computed length would throw in JS.) -/
def downsample (buffer : List ℚ) (ratio : ℚ) : List ℤ :=
  (List.range (jsRound ((buffer.length : ℚ) / ratio)).toNat).map fun i : ℕ =>
    sampleConvert
      (if 0 ≤ jsRound ((i : ℚ) * ratio) then
        buffer.getD (jsRound ((i : ℚ) * ratio)).toNat 0
      else 0)

/-- The method `convertAndDownsampleAudio(buffer, inputSampleRate)`
(lines 12–36). -/
def convertAndDownsampleAudio (buffer : List ℚ) (inputSampleRate : ℚ) : List ℤ :=
  if inputSampleRate = TARGET_SAMPLE_RATE then directConvert buffer
  else downsample buffer (inputSampleRate / TARGET_SAMPLE_RATE)

/-- Low byte of one `Int16Array` element in its two's-complement 16-bit
representation. -/
def int16LowByte (z : ℤ) : ℕ := ((z % 65536) % 256).toNat

/-- High byte of one `Int16Array` element in its two's-complement 16-bit
representation. -/
def int16HighByte (z : ℤ) : ℕ := ((z % 65536) / 256).toNat

/-- The `ArrayBuffer` underlying an `Int16Array` on a little-endian host
(the layout `pcm16Data.buffer` transfers on line 51): each element
contributes its low byte followed by its high byte. -/
def int16Bytes : List ℤ → List ℕ
  | [] => []
  | z :: zs => int16LowByte z :: int16HighByte z :: int16Bytes zs

/-- The method `process(inputs, outputs, parameters)` (lines 38–56).  `input` is
`inputs[0]`, the channel array of the first input (the AudioWorklet host
always supplies it).  The result is the list of payloads passed to
`this.port.postMessage` during the invocation, each as its list of
converted 16-bit samples: line 43 guards with
`input.length > 0 && input[0].length > 0`, so either one message is posted
(line 51) or none. -/
def process (input : List (List ℚ)) (sampleRate : ℚ) : List (List ℤ) :=
  if 0 < input.length ∧ 0 < (input.headD []).length then
    [convertAndDownsampleAudio (input.headD []) sampleRate]
  else []

/-- The byte buffers handed to the port by one `process` invocation. -/
def processBuffers (input : List (List ℚ)) (sampleRate : ℚ) : List (List ℕ) :=
  (process input sampleRate).map int16Bytes

/-- Repeated invocations of `convertAndDownsampleAudio` on a stream of
blocks at a fixed context rate.  The processor object has no mutable
fields, so each invocation is a plain function application. -/
def runConvert (buffers : List (List ℚ)) (sampleRate : ℚ) : List (List ℤ) :=
  buffers.map fun b => convertAndDownsampleAudio b sampleRate

/-! ## Helper lemmas -/

theorem neg_one_le_clamp (s : ℚ) : -1 ≤ clamp s := le_max_left _ _

theorem clamp_le_one (s : ℚ) : clamp s ≤ 1 :=
  max_le (by norm_num) (min_le_left _ _)

theorem jsRound_nonneg {q : ℚ} (h : 0 ≤ q) : 0 ≤ jsRound q := by
  unfold jsRound
  positivity

theorem jsRound_natCast (n : ℕ) : jsRound (n : ℚ) = n := by
  unfold jsRound
  rw [Int.floor_eq_iff]
  push_cast
  constructor <;> linarith

theorem toInt16_eq_self {n : ℤ} (h1 : -32768 ≤ n) (h2 : n ≤ 32767) :
    toInt16 n = n := by
  unfold toInt16
  rw [Int.emod_eq_of_lt (by linarith) (by linarith)]
  ring

theorem jsTrunc_le_of_le {q : ℚ} {n : ℤ} (hn : 0 ≤ n) (h : q ≤ n) :
    jsTrunc q ≤ n := by
  unfold jsTrunc
  split
  · have h0 : (0 : ℤ) ≤ ⌊-q⌋ := Int.le_floor.mpr (by push_cast; linarith)
    omega
  · calc ⌊q⌋ ≤ ⌊(n : ℚ)⌋ := Int.floor_le_floor h
    _ = n := Int.floor_intCast n

theorem le_jsTrunc_of_le {q : ℚ} {n : ℤ} (hn : n ≤ 0) (h : (n : ℚ) ≤ q) :
    n ≤ jsTrunc q := by
  unfold jsTrunc
  split
  · have h0 : ⌊-q⌋ ≤ ⌊((-n : ℤ) : ℚ)⌋ := Int.floor_le_floor (by push_cast; linarith)
    rw [Int.floor_intCast] at h0
    omega
  · have h0 : (0 : ℤ) ≤ ⌊q⌋ := Int.le_floor.mpr (by push_cast; linarith)
    omega

/-- The scaled, truncated clamped sample lies in the signed 16-bit range,
so the final `ToInt16` wrap is the identity. -/
theorem scaled_trunc_bounds (s : ℚ) :
    -32768 ≤ jsTrunc (if clamp s < 0 then clamp s * 32768 else clamp s * 32767) ∧
    jsTrunc (if clamp s < 0 then clamp s * 32768 else clamp s * 32767) ≤ 32767 := by
  have hlo := neg_one_le_clamp s
  have hhi := clamp_le_one s
  split
  · rename_i hneg
    constructor
    · exact le_jsTrunc_of_le (by norm_num) (by push_cast; nlinarith)
    · exact jsTrunc_le_of_le (by norm_num) (by push_cast; nlinarith)
  · rename_i hpos
    push_neg at hpos
    constructor
    · exact le_jsTrunc_of_le (by norm_num) (by push_cast; nlinarith)
    · exact jsTrunc_le_of_le (by norm_num) (by push_cast; nlinarith)

theorem sampleConvert_eq_trunc (s : ℚ) :
    sampleConvert s =
      jsTrunc (if clamp s < 0 then clamp s * 32768 else clamp s * 32767) := by
  unfold sampleConvert
  exact toInt16_eq_self (scaled_trunc_bounds s).1 (scaled_trunc_bounds s).2

theorem sampleConvert_one : sampleConvert 1 = 32767 := by
  have hc : clamp 1 = 1 := by
    unfold clamp
    rw [min_self, max_eq_right (by norm_num)]
  rw [sampleConvert_eq_trunc, hc, if_neg (by norm_num), one_mul]
  unfold jsTrunc
  rw [if_neg (by norm_num)]
  norm_num

theorem sampleConvert_neg_one : sampleConvert (-1) = -32768 := by
  have hc : clamp (-1) = -1 := by
    unfold clamp
    rw [min_eq_right (by norm_num), max_self]
  rw [sampleConvert_eq_trunc, hc, if_pos (by norm_num)]
  unfold jsTrunc
  rw [if_pos (by norm_num)]
  norm_num

theorem sampleConvert_zero : sampleConvert 0 = 0 := by
  have hc : clamp 0 = 0 := by
    unfold clamp
    rw [min_eq_right (by norm_num), max_eq_right (by norm_num)]
  rw [sampleConvert_eq_trunc, hc, if_neg (by norm_num), zero_mul]
  unfold jsTrunc
  norm_num

theorem downsample_length (buffer : List ℚ) (ratio : ℚ) :
    (downsample buffer ratio).length =
      (jsRound ((buffer.length : ℚ) / ratio)).toNat := by
  unfold downsample
  rw [List.length_map, List.length_range]

theorem convert_eq_downsample (buffer : List ℚ) {r : ℚ}
    (hne : r ≠ 16000) :
    convertAndDownsampleAudio buffer r =
      downsample buffer (r / TARGET_SAMPLE_RATE) := by
  unfold convertAndDownsampleAudio
  rw [if_neg (by simpa [TARGET_SAMPLE_RATE] using hne)]

theorem convert_eq_direct (buffer : List ℚ) :
    convertAndDownsampleAudio buffer 16000 = directConvert buffer := by
  unfold convertAndDownsampleAudio
  rw [if_pos (by norm_num [TARGET_SAMPLE_RATE])]

theorem downsample_getD {buffer : List ℚ} {ratio : ℚ} {i : ℕ}
    (hratio : 0 ≤ ratio) (hi : i < (downsample buffer ratio).length) :
    (downsample buffer ratio).getD i 0 =
      sampleConvert (buffer.getD (jsRound ((i : ℚ) * ratio)).toNat 0) := by
  have hidx : 0 ≤ jsRound ((i : ℚ) * ratio) :=
    jsRound_nonneg (by positivity)
  unfold downsample at hi ⊢
  rw [List.length_map, List.length_range] at hi
  rw [List.getD_eq_getElem _ _ (by rwa [List.length_map, List.length_range]),
    List.getElem_map, List.getElem_range, if_pos hidx]

theorem int16Bytes_getD (l : List ℤ) :
    ∀ k : ℕ, k < l.length →
      (int16Bytes l).getD (2 * k) 0 = int16LowByte (l.getD k 0) ∧
      (int16Bytes l).getD (2 * k + 1) 0 = int16HighByte (l.getD k 0) := by
  induction l with
  | nil => intro k hk; simp at hk
  | cons z zs ih =>
    intro k hk
    cases k with
    | zero => exact ⟨rfl, rfl⟩
    | succ k =>
      have h2 : 2 * (k + 1) = 2 * k + 1 + 1 := by ring
      rw [h2]
      simp only [int16Bytes, List.getD_cons_succ]
      exact ih k (by simpa using Nat.lt_of_succ_lt_succ hk)

theorem process_nonempty {input : List (List ℚ)} {r : ℚ}
    (h : 0 < input.length ∧ 0 < (input.headD []).length) :
    process input r = [convertAndDownsampleAudio (input.headD []) r] := by
  unfold process
  rw [if_pos h]

/-! ## Claims -/

/-- C1: the sample conversion clamps to `[-1, 1]` and scales
asymmetrically — a negative clamped value by `32768`, a non-negative one by
`32767` — truncating toward zero; in particular it sends `1.0` to `32767`,
`-1.0` to `-32768` and `0.0` to `0`. -/
theorem sampleConvert_asymmetric_scale (s : ℚ) :
    sampleConvert s =
      jsTrunc (if clamp s < 0 then clamp s * 32768 else clamp s * 32767) ∧
    sampleConvert 1 = 32767 ∧
    sampleConvert (-1) = -32768 ∧
    sampleConvert 0 = 0 :=
  ⟨sampleConvert_eq_trunc s, sampleConvert_one, sampleConvert_neg_one,
    sampleConvert_zero⟩

/-- C2: every converted sample lies in `[-32768, 32767]`, and out-of-range
inputs saturate to the range limits rather than wrapping. -/
theorem sampleConvert_saturates (s : ℚ) :
    (-32768 ≤ sampleConvert s ∧ sampleConvert s ≤ 32767) ∧
    (1 ≤ s → sampleConvert s = 32767) ∧
    (s ≤ -1 → sampleConvert s = -32768) := by
  refine ⟨?_, ?_, ?_⟩
  · rw [sampleConvert_eq_trunc]
    exact scaled_trunc_bounds s
  · intro hs
    have hc : clamp s = 1 := by
      unfold clamp
      rw [min_eq_left hs, max_eq_right (by norm_num)]
    rw [sampleConvert_eq_trunc, hc, if_neg (by norm_num), one_mul]
    unfold jsTrunc
    rw [if_neg (by norm_num)]
    norm_num
  · intro hs
    have hc : clamp s = -1 := by
      unfold clamp
      rw [min_eq_right (by linarith), max_eq_left hs]
    rw [sampleConvert_eq_trunc, hc, if_pos (by norm_num)]
    unfold jsTrunc
    rw [if_pos (by norm_num)]
    norm_num

/-- Witness for C2 at the out-of-range inputs `2` and `-3`. -/
theorem sampleConvert_saturates_witness :
    sampleConvert 2 = 32767 ∧ sampleConvert (-3) = -32768 :=
  ⟨(sampleConvert_saturates 2).2.1 (by norm_num),
    (sampleConvert_saturates (-3)).2.2 (by norm_num)⟩

/-- C3: at the target rate `16000` the output has the input's length and
`output[i] = sampleConvert (input[i])` for every index. -/
theorem convert_identity_rate (b : List ℚ) (i : ℕ) (hi : i < b.length) :
    (convertAndDownsampleAudio b 16000).length = b.length ∧
    (convertAndDownsampleAudio b 16000).getD i 0 =
      sampleConvert (b.getD i 0) := by
  rw [convert_eq_direct]
  unfold directConvert
  refine ⟨List.length_map _ _, ?_⟩
  rw [List.getD_eq_getElem _ _ (by simpa using hi), List.getElem_map,
    List.getD_eq_getElem _ _ hi]

/-- Witness for C3 on the block `[1/2, -1]` at index `1`. -/
theorem convert_identity_rate_witness :
    (convertAndDownsampleAudio [1/2, -1] 16000).length = 2 ∧
    (convertAndDownsampleAudio [1/2, -1] 16000).getD 1 0 =
      sampleConvert (([1/2, -1] : List ℚ).getD 1 0) :=
  convert_identity_rate [1/2, -1] 1 (by norm_num)

/-- C4: for a positive input rate other than `16000`, the output length is
`round(inputLength / ratio)` with `ratio = R_in / 16000`. -/
theorem convert_length_law (b : List ℚ) (r : ℚ) (h0 : 0 < r)
    (hne : r ≠ 16000) :
    ((convertAndDownsampleAudio b r).length : ℤ) =
      jsRound ((b.length : ℚ) / (r / TARGET_SAMPLE_RATE)) := by
  rw [convert_eq_downsample b hne, downsample_length]
  refine Int.toNat_of_nonneg (jsRound_nonneg ?_)
  have hr : 0 < r / TARGET_SAMPLE_RATE := by
    rw [TARGET_SAMPLE_RATE]
    positivity
  positivity

/-- Witness for C4: a 300-sample block at `48000` Hz (ratio `3`) yields
exactly `100` output samples. -/
theorem convert_length_law_witness :
    (0 : ℚ) < 48000 ∧ (48000 : ℚ) ≠ 16000 ∧
    ((convertAndDownsampleAudio (List.replicate 300 0) 48000).length : ℤ) = 100 := by
  refine ⟨by norm_num, by norm_num, ?_⟩
  rw [convert_length_law (List.replicate 300 0) 48000 (by norm_num) (by norm_num)]
  rw [List.length_replicate]
  norm_num [jsRound, TARGET_SAMPLE_RATE]

/-- C5: in the downsampling case, an output index whose source index
`round(i * ratio)` is in bounds receives the conversion of the sample at
that source index. -/
theorem convert_index_correct (b : List ℚ) (r : ℚ) (i : ℕ) (h0 : 0 < r)
    (hne : r ≠ 16000)
    (hi : i < (convertAndDownsampleAudio b r).length)
    (_hidx : (jsRound ((i : ℚ) * (r / TARGET_SAMPLE_RATE))).toNat < b.length) :
    (convertAndDownsampleAudio b r).getD i 0 =
      sampleConvert (b.getD (jsRound ((i : ℚ) * (r / TARGET_SAMPLE_RATE))).toNat 0) := by
  rw [convert_eq_downsample b hne] at hi ⊢
  exact downsample_getD (by rw [TARGET_SAMPLE_RATE]; positivity) hi

/-- Witness for C5: at `48000` Hz (ratio `3`), output index `1` of a
6-sample block reads source index `3`. -/
theorem convert_index_correct_witness :
    (0 : ℚ) < 48000 ∧ (48000 : ℚ) ≠ 16000 ∧
    1 < (convertAndDownsampleAudio ([0, 0, 0, 1, 0, 0] : List ℚ) 48000).length ∧
    (jsRound (((1 : ℕ) : ℚ) * (48000 / TARGET_SAMPLE_RATE))).toNat <
      ([0, 0, 0, 1, 0, 0] : List ℚ).length ∧
    (convertAndDownsampleAudio ([0, 0, 0, 1, 0, 0] : List ℚ) 48000).getD 1 0 =
      sampleConvert (([0, 0, 0, 1, 0, 0] : List ℚ).getD
        (jsRound (((1 : ℕ) : ℚ) * (48000 / TARGET_SAMPLE_RATE))).toNat 0) := by
  have hlen : (convertAndDownsampleAudio ([0, 0, 0, 1, 0, 0] : List ℚ) 48000).length = 2 := by
    rw [convert_eq_downsample _ (by norm_num), downsample_length]
    have h6 : ((([0, 0, 0, 1, 0, 0] : List ℚ)).length : ℚ) = 6 := by norm_num
    rw [h6]
    have h2 : jsRound ((6 : ℚ) / (48000 / TARGET_SAMPLE_RATE)) = 2 := by
      norm_num [jsRound, TARGET_SAMPLE_RATE]
    rw [h2]
    rfl
  have hidx0 : jsRound (((1 : ℕ) : ℚ) * (48000 / TARGET_SAMPLE_RATE)) = 3 := by
    push_cast
    norm_num [jsRound, TARGET_SAMPLE_RATE]
  have hidx : (jsRound (((1 : ℕ) : ℚ) * (48000 / TARGET_SAMPLE_RATE))).toNat = 3 := by
    rw [hidx0]
    rfl
  refine ⟨by norm_num, by norm_num, by rw [hlen]; norm_num,
    by rw [hidx]; norm_num, ?_⟩
  exact convert_index_correct _ 48000 1 (by norm_num) (by norm_num)
    (by rw [hlen]; norm_num) (by rw [hidx]; norm_num)

/-- C6: in the downsampling case, an output index whose source index falls
outside the input block receives the conversion of silence `0.0`, which is
`0` — every access in the loop is total. -/
theorem convert_boundary_silence (b : List ℚ) (r : ℚ) (i : ℕ) (h0 : 0 < r)
    (hne : r ≠ 16000)
    (hi : i < (convertAndDownsampleAudio b r).length)
    (hidx : b.length ≤ (jsRound ((i : ℚ) * (r / TARGET_SAMPLE_RATE))).toNat) :
    (convertAndDownsampleAudio b r).getD i 0 = sampleConvert 0 ∧
    sampleConvert 0 = 0 := by
  rw [convert_eq_downsample b hne] at hi ⊢
  rw [downsample_getD (by rw [TARGET_SAMPLE_RATE]; positivity) hi,
    List.getD_eq_default _ _ hidx]
  exact ⟨rfl, sampleConvert_zero⟩

/-- Witness for C6: a single-sample block at `8000` Hz (ratio `1/2`) has
two output indices, and the second one's source index `1` is one past the
input; the output sample there is the conversion of silence. -/
theorem convert_boundary_silence_witness :
    (0 : ℚ) < 8000 ∧ (8000 : ℚ) ≠ 16000 ∧
    1 < (convertAndDownsampleAudio ([1] : List ℚ) 8000).length ∧
    ([1] : List ℚ).length ≤
      (jsRound (((1 : ℕ) : ℚ) * (8000 / TARGET_SAMPLE_RATE))).toNat ∧
    (convertAndDownsampleAudio ([1] : List ℚ) 8000).getD 1 0 = sampleConvert 0 := by
  have hlen : (convertAndDownsampleAudio ([1] : List ℚ) 8000).length = 2 := by
    rw [convert_eq_downsample _ (by norm_num), downsample_length]
    have h1 : ((([1] : List ℚ)).length : ℚ) = 1 := by norm_num
    rw [h1]
    have h2 : jsRound ((1 : ℚ) / (8000 / TARGET_SAMPLE_RATE)) = 2 := by
      norm_num [jsRound, TARGET_SAMPLE_RATE]
    rw [h2]
    rfl
  have hidx0 : jsRound (((1 : ℕ) : ℚ) * (8000 / TARGET_SAMPLE_RATE)) = 1 := by
    push_cast
    norm_num [jsRound, TARGET_SAMPLE_RATE]
  have hidx : (jsRound (((1 : ℕ) : ℚ) * (8000 / TARGET_SAMPLE_RATE))).toNat = 1 := by
    rw [hidx0]
    rfl
  refine ⟨by norm_num, by norm_num, by rw [hlen]; norm_num,
    by rw [hidx]; norm_num, ?_⟩
  exact (convert_boundary_silence _ 8000 1 (by norm_num) (by norm_num)
    (by rw [hlen]; norm_num) (by rw [hidx]; norm_num)).1

/-- C7: an invocation with an empty input block — zero channels, or zero
samples on the first channel — posts nothing to the port; exactly one
block is posted exactly when the first channel is non-empty. -/
theorem process_empty_no_emission (input : List (List ℚ)) (r : ℚ) :
    ((process input r).length = 0 ↔
      input.length = 0 ∨ (input.headD []).length = 0) ∧
    ((process input r).length = 1 ↔
      0 < input.length ∧ 0 < (input.headD []).length) := by
  by_cases h : 0 < input.length ∧ 0 < (input.headD []).length
  · rw [process_nonempty h]
    simp only [List.length_cons, List.length_nil]
    refine ⟨⟨fun h0 => ?_, fun h0 => ?_⟩, fun _ => h, fun _ => trivial⟩
    · omega
    · rcases h0 with h0 | h0 <;> omega
  · have hp : process input r = [] := by
      unfold process
      rw [if_neg h]
    push_neg at h
    rw [hp]
    simp only [List.length_nil]
    refine ⟨⟨fun _ => ?_, fun _ => trivial⟩, fun h0 => ?_, fun hc => ?_⟩
    · rcases Nat.eq_zero_or_pos input.length with h1 | h1
      · exact Or.inl h1
      · have h2 := h h1
        omega
    · omega
    · have h2 := h hc.1
      omega

/-- C8: the buffer handed to the port is little-endian 16-bit signed PCM —
byte `2k` is the low byte and byte `2k + 1` the high byte of the `k`-th
converted sample. -/
theorem process_bytes_little_endian (input : List (List ℚ)) (r : ℚ)
    (h : 0 < input.length ∧ 0 < (input.headD []).length) (k : ℕ)
    (hk : k < (convertAndDownsampleAudio (input.headD []) r).length) :
    ((processBuffers input r).headD []).getD (2 * k) 0 =
      int16LowByte ((convertAndDownsampleAudio (input.headD []) r).getD k 0) ∧
    ((processBuffers input r).headD []).getD (2 * k + 1) 0 =
      int16HighByte ((convertAndDownsampleAudio (input.headD []) r).getD k 0) := by
  unfold processBuffers
  rw [process_nonempty h]
  simp only [List.map_cons, List.map_nil, List.headD_cons]
  exact int16Bytes_getD _ k hk

/-- Witness for C8 on the one-sample block `[1.0]` at the target rate. -/
theorem process_bytes_little_endian_witness :
    ((processBuffers [[1]] 16000).headD []).getD 0 0 =
      int16LowByte ((convertAndDownsampleAudio ([[(1 : ℚ)]].headD []) 16000).getD 0 0) ∧
    ((processBuffers [[1]] 16000).headD []).getD 1 0 =
      int16HighByte ((convertAndDownsampleAudio ([[(1 : ℚ)]].headD []) 16000).getD 0 0) := by
  have hk : 0 < (convertAndDownsampleAudio ([[(1 : ℚ)]].headD []) 16000).length := by
    rw [convert_eq_direct]
    simp [directConvert]
  exact process_bytes_little_endian [[1]] 16000 ⟨by simp, by simp⟩ 0 hk

/-- C9: the conversion is deterministic and stateless across invocations —
in a stream of blocks processed at one context rate, any two positions
holding identical input blocks yield outputs of identical length and
identical content. -/
theorem convert_stateless (buffers : List (List ℚ)) (r : ℚ) (i j : ℕ)
    (hi : i < buffers.length) (hj : j < buffers.length)
    (hb : buffers.getD i [] = buffers.getD j []) :
    ((runConvert buffers r).getD i []).length =
      ((runConvert buffers r).getD j []).length ∧
    (runConvert buffers r).getD i [] = (runConvert buffers r).getD j [] := by
  unfold runConvert
  rw [List.getD_eq_getElem _ _ (by simpa using hi), List.getElem_map,
    List.getD_eq_getElem _ _ (by simpa using hj), List.getElem_map,
    ← List.getD_eq_getElem _ ([] : List ℚ) hi,
    ← List.getD_eq_getElem _ ([] : List ℚ) hj, hb]
  exact ⟨rfl, rfl⟩

/-- Witness for C9: two equal blocks at positions `0` and `1` of a stream
produce equal outputs. -/
theorem convert_stateless_witness :
    ((runConvert [[1, 0], [1, 0]] 48000).getD 0 []).length =
      ((runConvert [[1, 0], [1, 0]] 48000).getD 1 []).length ∧
    (runConvert [[1, 0], [1, 0]] 48000).getD 0 [] =
      (runConvert [[1, 0], [1, 0]] 48000).getD 1 [] :=
  convert_stateless [[1, 0], [1, 0]] 48000 0 1 (by simp) (by simp) rfl

/-- C10: the general downsampling formula evaluated at the target input
rate (ratio `1`) coincides with the dedicated direct-conversion branch the
function takes when the rates are equal — the identity branch is a
semantics-preserving specialization, not a behavioral exception. -/
theorem downsample_refines_direct (buffer : List ℚ) :
    downsample buffer ((16000 : ℚ) / TARGET_SAMPLE_RATE) =
      convertAndDownsampleAudio buffer 16000 := by
  rw [convert_eq_direct]
  have hr : (16000 : ℚ) / TARGET_SAMPLE_RATE = 1 := by
    norm_num [TARGET_SAMPLE_RATE]
  rw [hr]
  unfold downsample directConvert
  have hlen : (jsRound ((buffer.length : ℚ) / 1)).toNat = buffer.length := by
    rw [div_one, jsRound_natCast, Int.toNat_natCast]
  rw [hlen]
  apply List.ext_getElem
  · rw [List.length_map, List.length_range, List.length_map]
  · intro n h1 h2
    rw [List.getElem_map, List.getElem_range, List.getElem_map]
    have hidx : jsRound ((n : ℚ) * 1) = (n : ℤ) := by
      rw [mul_one, jsRound_natCast]
    rw [hidx, if_pos (Int.natCast_nonneg n), Int.toNat_natCast,
      List.getD_eq_getElem _ _ (by simpa using h2)]

end PcmProc
